import Mathlib

/-!
# Verification of the TCP/UDP fan-out relay

A shallow embedding of `src/tcprelay.py` and `src/udprelay.py`.

The TCP relay keeps a global dict `target_connections` mapping each target
address to `None` (disconnected) or to an open `(reader, writer)` pair.  We
model the dict as an insertion-ordered association list `Registry` with the
dict's assignment semantics (`Registry.set` updates an existing key in place,
otherwise appends), a connection handle as an opaque `Nat`, and the stored
value as `Option Handle` (`none` = disconnected, `some h` = connected).

Network effects are modelled by outcome oracles passed to each function:
* `connOut : Addr → Option Handle` — what `asyncio.wait_for(open_connection ip, 5)`
  would yield for each address (`some h` success, `none` timeout/refusal);
* `wout : Addr → WriteOutcome` — what `writer.write; writer.drain` would do;
* `closeFails : Addr → Bool` — whether `writer.close()` raises at shutdown.

`asyncio.gather` over per-target tasks that each touch only their own key is
modelled as a sequential fold over the snapshot list of selected addresses,
which is a faithful interleaving of the single-threaded cooperative scheduler.
A Python `try/except` that swallows an exception is modelled by the function
returning its input state on the failure branch (totality = "never raises").
-/

set_option autoImplicit false

namespace TcpRelay

/-- A target address (a line of the config file). -/
abbrev Addr := String

/-- An opaque established-connection handle (stands for a `(reader, writer)` pair). -/
abbrev Handle := Nat

/-- The global dict `target_connections`: insertion-ordered map from address to
`None` (modelled `none`) or a connection handle (modelled `some h`). -/
abbrev Registry := List (Addr × Option Handle)

/-- `target_connections[ip]` as a lookup that also reports key absence. -/
def Registry.get : Registry → Addr → Option (Option Handle)
  | [], _ => none
  | (k, v) :: rest, ip => if k = ip then some v else Registry.get rest ip

/-- Python dict assignment `target_connections[ip] = v`: update an existing key
in place (keeping its position), otherwise append the key at the end. -/
def Registry.set : Registry → Addr → Option Handle → Registry
  | [], ip, v => [(ip, v)]
  | (k, w) :: rest, ip, v =>
    if k = ip then (ip, v) :: rest else (k, w) :: Registry.set rest ip v

/-- The dict's key sequence. -/
def Registry.keys (r : Registry) : List Addr := r.map Prod.fst

/-- Connect timeout used in `connect_to_target` (`asyncio.wait_for(..., timeout=5)`). -/
def connect_timeout : Nat := 5

/-- Python's `str.strip()`: remove leading and trailing whitespace (which is
what discards the `"\n"` that file iteration leaves on each line). -/
def pyStrip (s : String) : String :=
  String.mk (((s.data.dropWhile Char.isWhitespace).reverse.dropWhile Char.isWhitespace).reverse)

/-- `read_ips_from_config`: one address per line, stripped, falsy (empty)
stripped lines dropped.  A file is modelled as its list of lines. -/
def read_ips_from_config (lines : List String) : List Addr :=
  (lines.map pyStrip).filter (fun s => s ≠ "")

/-- `main`: `target_connections = {ip: None for ip in ips}` — dict comprehension,
every configured address initialised to `None`. -/
def initRegistry (ips : List Addr) : Registry :=
  ips.foldl (fun r ip => Registry.set r ip none) []

/-- `connect_to_target ip`: try to open a connection to `ip` with a 5-unit
timeout; on success store the handle (`target_connections[ip] = (reader, writer)`),
on timeout or any connection error catch the exception (log only) and leave the
registry unchanged. -/
def connect_to_target (connOut : Addr → Option Handle) (r : Registry) (ip : Addr) :
    Registry :=
  match connOut ip with
  | some h => Registry.set r ip (some h)
  | none => r

/-- `connect_to_targets`: collect the addresses currently mapped to `None`
(the snapshot taken while building the task list), then run
`connect_to_target` for each (the `asyncio.gather`). -/
def pendingAddrs (r : Registry) : List Addr :=
  (r.filter (fun p => p.2 = none)).map Prod.fst

def connect_to_targets (connOut : Addr → Option Handle) (r : Registry) : Registry :=
  (pendingAddrs r).foldl (connect_to_target connOut) r

/-- Outcome of `writer.write(data); await writer.drain()` on one target. -/
inductive WriteOutcome where
  | ok
  | resetErr
  | otherErr
  deriving DecidableEq

/-- `forward_to_target`: write the chunk to one target; on
`ConnectionResetError`/`BrokenPipeError` reset the entry to `None`; any other
exception is caught and logged with the entry left as it is. -/
def forward_to_target (wout : Addr → WriteOutcome) (r : Registry) (ip : Addr) :
    Registry :=
  match wout ip with
  | WriteOutcome.ok => r
  | WriteOutcome.resetErr => Registry.set r ip none
  | WriteOutcome.otherErr => r

/-- `forward_data`: snapshot the addresses with a non-`None` connection, then
run `forward_to_target` for each (the `asyncio.gather`). -/
def connectedAddrs (r : Registry) : List Addr :=
  (r.filter (fun p => p.2.isSome)).map Prod.fst

def forward_data (wout : Addr → WriteOutcome) (r : Registry) : Registry :=
  (connectedAddrs r).foldl (forward_to_target wout) r

/-- Per-target update step shared by the connect pass and the forwarder: both
gather one task per selected address, each task conditionally overwriting only
its own key.  `updWhere` is that per-task effect; `connect_to_target` and
`forward_to_target` are proved below to be instances of it. -/
def updWhere (cond : Addr → Bool) (g : Addr → Option Handle) (r : Registry) (ip : Addr) :
    Registry :=
  if cond ip then Registry.set r ip (g ip) else r

/-- Events of `start_server` in program order: the awaited initial connect
pass issues one attempt per currently-`None` address, then
`asyncio.create_task(reconnect_task(...))` starts the reconnection loop, then
`asyncio.start_server`/`serve_forever` begins accepting clients. -/
inductive StartupEv where
  | connectAttempt (ip : Addr)
  | spawnReconnectLoop
  | beginAccept
  deriving DecidableEq

def start_server_events (r : Registry) : List StartupEv :=
  (pendingAddrs r).map StartupEv.connectAttempt ++
    [StartupEv.spawnReconnectLoop, StartupEv.beginAccept]

/-- `start_server`: `await connect_to_targets(...)` completes first, so the
accept loop starts with the post-pass registry; the startup events record the
program order of the three phases. -/
def start_server (connOut : Addr → Option Handle) (r : Registry) :
    Registry × List StartupEv :=
  (connect_to_targets connOut r, start_server_events r)

/-- The `writer.close(); writer.wait_closed()` of one target inside the
shutdown loop's `try`: it either succeeds or raises. -/
def try_close (closeFails : Addr → Bool) (ip : Addr) : Except String Unit :=
  if closeFails ip then Except.error "close failed" else Except.ok ()

/-- One iteration of the shutdown loop over `target_connections.items()`:
skip a `None` entry; otherwise attempt the close, and catch (log only) a
raised exception so the loop continues.  The accumulator records each
attempted target and whether its close succeeded. -/
def shutdown_close_step (closeFails : Addr → Bool) (acc : List (Addr × Bool))
    (p : Addr × Option Handle) : List (Addr × Bool) :=
  match p.2 with
  | some _ =>
    match try_close closeFails p.1 with
    | Except.ok _ => acc ++ [(p.1, true)]
    | Except.error _ => acc ++ [(p.1, false)]
  | none => acc

/-- `shutdown_server`: set `running = False`, then walk the whole registry
closing every non-`None` connection best-effort. -/
def shutdown_server (closeFails : Addr → Bool) (r : Registry) :
    Bool × List (Addr × Bool) :=
  (false, r.foldl (shutdown_close_step closeFails) [])

/-- One `await reader.read(4096)` outcome in a client session: a chunk of
bytes (the empty chunk is Python's `b""`, i.e. EOF) or a raised read error. -/
inductive ReadRes where
  | chunk (d : List Nat)
  | readErr
  deriving DecidableEq

/-- Why the `while running:` loop of `handle_client` ended. -/
inductive SessionEnd where
  | eof
  | failed
  | stopped
  deriving DecidableEq

/-- The `while running:` body of `handle_client`, driven by the finite trace
of read outcomes: collect the chunks handed to `forward_data`, in order, and
how the loop ended (`break` on an empty read; a read error raises out of the
loop into the handler's `except`; an exhausted trace stands for `running`
becoming false). -/
def session_loop : List ReadRes → List (List Nat) × SessionEnd
  | [] => ([], SessionEnd.stopped)
  | ReadRes.readErr :: _ => ([], SessionEnd.failed)
  | ReadRes.chunk d :: rest =>
    if d = [] then ([], SessionEnd.eof)
    else
      let out := session_loop rest
      (d :: out.1, out.2)

/-- Result of one client session. -/
structure SessionResult where
  forwarded : List (List Nat)
  ended : SessionEnd
  closed : Bool
  deriving DecidableEq

/-- `handle_client`: the loop runs inside `try/except` (a raised read error is
caught and logged), and the `finally:` block then runs
`writer.close(); await writer.wait_closed()` on every path. -/
def handle_client (reads : List ReadRes) : SessionResult :=
  let out := session_loop reads
  { forwarded := out.1, ended := out.2, closed := true }

end TcpRelay

namespace UdpRelay

open TcpRelay (Addr)

/-- `forward_data` of `udprelay.py`: open a throwaway UDP socket and
`sendto(data, (ip, PORT))`; any exception is caught and logged.  Its one
observable effect is the attempted send. -/
def forward_data (data : List Nat) (ip : Addr) : Addr × List Nat :=
  (ip, data)

/-- `handle_client` of `udprelay.py`, driven by the finite trace of received
datagrams: `if not data: break`, otherwise fan the datagram out to every
configured target (`tasks = [forward_data(data, ip) for ip in target_ips]`).
Returns all attempted sends in order. -/
def handle_client (target_ips : List Addr) : List (List Nat) → List (Addr × List Nat)
  | [] => []
  | d :: rest =>
    if d = [] then []
    else target_ips.map (forward_data d) ++ handle_client target_ips rest

end UdpRelay

namespace TcpRelay

/-! ## Basic lemmas about the registry -/

@[simp] theorem keys_nil : Registry.keys [] = [] := rfl

@[simp] theorem keys_cons (k : Addr) (w : Option Handle) (rest : Registry) :
    Registry.keys ((k, w) :: rest) = k :: Registry.keys rest := rfl

theorem get_set_self : ∀ (r : Registry) (ip : Addr) (v : Option Handle),
    Registry.get (Registry.set r ip v) ip = some v
  | [], ip, v => by simp [Registry.set, Registry.get]
  | (k, w) :: rest, ip, v => by
    by_cases h : k = ip
    · simp [Registry.set, Registry.get, h]
    · simp [Registry.set, Registry.get, h, get_set_self rest ip v]

theorem get_set_ne : ∀ (r : Registry) (ip ip' : Addr) (v : Option Handle),
    ip' ≠ ip → Registry.get (Registry.set r ip v) ip' = Registry.get r ip'
  | [], ip, ip', v, hne => by
    simp [Registry.set, Registry.get, Ne.symm hne]
  | (k, w) :: rest, ip, ip', v, hne => by
    by_cases h : k = ip
    · subst h
      simp [Registry.set, Registry.get, Ne.symm hne]
    · by_cases h2 : k = ip'
      · subst h2
        simp [Registry.set, Registry.get, h]
      · simp [Registry.set, Registry.get, h, h2, get_set_ne rest ip ip' v hne]

theorem keys_set_of_mem : ∀ (r : Registry) (ip : Addr) (v : Option Handle),
    ip ∈ Registry.keys r → Registry.keys (Registry.set r ip v) = Registry.keys r
  | [], ip, v, hmem => by simp at hmem
  | (k, w) :: rest, ip, v, hmem => by
    by_cases h : k = ip
    · simp [Registry.set, h]
    · have hip : ip ∈ Registry.keys rest := by
        rw [keys_cons] at hmem
        exact (List.mem_cons.mp hmem).resolve_left (fun he => h he.symm)
      simp only [Registry.set, if_neg h, keys_cons]
      rw [keys_set_of_mem rest ip v hip]

theorem get_eq_none_of_not_mem : ∀ (r : Registry) (ip : Addr),
    ip ∉ Registry.keys r → Registry.get r ip = none
  | [], _, _ => rfl
  | (k, w) :: rest, ip, hmem => by
    rw [keys_cons] at hmem
    have hk : ¬k = ip := fun he => hmem (List.mem_cons.mpr (Or.inl he.symm))
    simp only [Registry.get, if_neg hk]
    exact get_eq_none_of_not_mem rest ip (fun ht => hmem (List.mem_cons_of_mem _ ht))

theorem mem_keys_of_get_eq_some : ∀ (r : Registry) (ip : Addr) (v : Option Handle),
    Registry.get r ip = some v → ip ∈ Registry.keys r
  | [], ip, v, h => by simp [Registry.get] at h
  | (k, w) :: rest, ip, v, h => by
    by_cases hk : k = ip
    · rw [keys_cons]
      exact List.mem_cons.mpr (Or.inl hk.symm)
    · simp only [Registry.get, if_neg hk] at h
      rw [keys_cons]
      exact List.mem_cons_of_mem _ (mem_keys_of_get_eq_some rest ip v h)

theorem mem_of_get_eq_some : ∀ (r : Registry) (ip : Addr) (v : Option Handle),
    Registry.get r ip = some v → (ip, v) ∈ r
  | [], ip, v, h => by simp [Registry.get] at h
  | (k, w) :: rest, ip, v, h => by
    by_cases hk : k = ip
    · subst hk
      simp only [Registry.get, if_pos rfl] at h
      obtain rfl : w = v := Option.some.inj h
      exact List.mem_cons_self _ _
    · simp only [Registry.get, if_neg hk] at h
      exact List.mem_cons_of_mem _ (mem_of_get_eq_some rest ip v h)

theorem get_eq_some_of_mem : ∀ (r : Registry) (ip : Addr) (v : Option Handle),
    (Registry.keys r).Nodup → (ip, v) ∈ r → Registry.get r ip = some v
  | [], ip, v, _, hmem => absurd hmem (List.not_mem_nil _)
  | (k, w) :: rest, ip, v, hnd, hmem => by
    rw [keys_cons] at hnd
    have hnd2 := List.nodup_cons.mp hnd
    rcases List.mem_cons.mp hmem with heq | htail
    · injection heq with h1 h2
      subst h1
      subst h2
      simp [Registry.get]
    · have hipk : ip ∈ Registry.keys rest := List.mem_map_of_mem Prod.fst htail
      have hk : ¬k = ip := fun he => hnd2.1 (by rw [he]; exact hipk)
      simp only [Registry.get, if_neg hk]
      exact get_eq_some_of_mem rest ip v hnd2.2 htail

/-- Two registries with the same (duplicate-free) key sequence and the same
lookup at every address are equal. -/
theorem registry_ext : ∀ (r1 r2 : Registry),
    Registry.keys r1 = Registry.keys r2 → (Registry.keys r1).Nodup →
    (∀ ip, Registry.get r1 ip = Registry.get r2 ip) → r1 = r2
  | [], [], _, _, _ => rfl
  | [], (k, w) :: t2, hk, _, _ => by simp at hk
  | (k, w) :: t1, [], hk, _, _ => by simp at hk
  | (k1, w1) :: t1, (k2, w2) :: t2, hk, hnd, hget => by
    rw [keys_cons, keys_cons] at hk
    rw [keys_cons] at hnd
    injection hk with hk12 hkt
    subst hk12
    have hnd2 := List.nodup_cons.mp hnd
    have hw : w1 = w2 := Option.some.inj (by simpa [Registry.get] using hget k1)
    subst hw
    have htail : t1 = t2 := by
      apply registry_ext t1 t2 hkt hnd2.2
      intro ip
      by_cases hip : k1 = ip
      · subst hip
        rw [get_eq_none_of_not_mem t1 k1 hnd2.1,
          get_eq_none_of_not_mem t2 k1 (hkt ▸ hnd2.1)]
      · have := hget ip
        simpa only [Registry.get, if_neg hip] using this
    rw [htail]

/-! ## The shared per-target update pattern -/

theorem connect_to_target_eq_updWhere (connOut : Addr → Option Handle) (r : Registry)
    (ip : Addr) :
    connect_to_target connOut r ip =
      updWhere (fun a => (connOut a).isSome) (fun a => connOut a) r ip := by
  cases h : connOut ip <;> simp [connect_to_target, updWhere, h]

theorem forward_to_target_eq_updWhere (wout : Addr → WriteOutcome) (r : Registry)
    (ip : Addr) :
    forward_to_target wout r ip =
      updWhere (fun a => wout a = WriteOutcome.resetErr) (fun _ => none) r ip := by
  cases h : wout ip <;> simp [forward_to_target, updWhere, h]

theorem keys_updWhere (cond : Addr → Bool) (g : Addr → Option Handle) (r : Registry)
    (ip : Addr) (h : ip ∈ Registry.keys r) :
    Registry.keys (updWhere cond g r ip) = Registry.keys r := by
  unfold updWhere
  split
  · exact keys_set_of_mem r ip _ h
  · rfl

theorem get_updWhere_ne (cond : Addr → Bool) (g : Addr → Option Handle) (r : Registry)
    (ip ip' : Addr) (h : ip' ≠ ip) :
    Registry.get (updWhere cond g r ip) ip' = Registry.get r ip' := by
  unfold updWhere
  split
  · exact get_set_ne r ip ip' _ h
  · rfl

theorem foldl_updWhere_keys (cond : Addr → Bool) (g : Addr → Option Handle) :
    ∀ (L : List Addr) (r : Registry), (∀ ip ∈ L, ip ∈ Registry.keys r) →
    Registry.keys (L.foldl (updWhere cond g) r) = Registry.keys r
  | [], r, _ => rfl
  | a :: L1, r, hmem => by
    have ha : a ∈ Registry.keys r := hmem a (List.mem_cons_self _ _)
    have hkeys : Registry.keys (updWhere cond g r a) = Registry.keys r :=
      keys_updWhere cond g r a ha
    rw [List.foldl_cons,
      foldl_updWhere_keys cond g L1 _
        (fun ip hip => hkeys.symm ▸ hmem ip (List.mem_cons_of_mem _ hip)),
      hkeys]

/-- Pointwise effect of a fold of `updWhere` over a duplicate-free list of
existing keys: an address in the list with a true condition gets the new value;
every other address keeps its old value. -/
theorem foldl_updWhere_get (cond : Addr → Bool) (g : Addr → Option Handle) :
    ∀ (L : List Addr) (r : Registry), L.Nodup →
    (∀ ip ∈ L, ip ∈ Registry.keys r) → ∀ ip,
    Registry.get (L.foldl (updWhere cond g) r) ip =
      if ip ∈ L ∧ cond ip then some (g ip) else Registry.get r ip
  | [], r, _, _, ip => by simp
  | a :: L1, r, hnd, hmem, ip => by
    have hnd2 := List.nodup_cons.mp hnd
    have ha : a ∈ Registry.keys r := hmem a (List.mem_cons_self _ _)
    have hkeys := keys_updWhere cond g r a ha
    have hmem1 : ∀ ip ∈ L1, ip ∈ Registry.keys (updWhere cond g r a) :=
      fun ip hip => hkeys.symm ▸ hmem ip (List.mem_cons_of_mem _ hip)
    rw [List.foldl_cons, foldl_updWhere_get cond g L1 _ hnd2.2 hmem1 ip]
    by_cases hip : ip = a
    · subst hip
      rw [if_neg (fun hc => hnd2.1 hc.1)]
      unfold updWhere
      by_cases hc : cond ip = true
      · rw [if_pos hc, get_set_self, if_pos ⟨List.mem_cons_self _ _, hc⟩]
      · rw [if_neg hc, if_neg (fun hand => hc hand.2)]
    · rw [get_updWhere_ne cond g r a ip hip]
      by_cases hL : ip ∈ L1
      · by_cases hc : cond ip = true
        · rw [if_pos ⟨hL, hc⟩, if_pos ⟨List.mem_cons_of_mem _ hL, hc⟩]
        · rw [if_neg (fun x => hc x.2), if_neg (fun x => hc x.2)]
      · have hout : ip ∉ a :: L1 := by
          intro hx
          rcases List.mem_cons.mp hx with h | h
          · exact hip h
          · exact hL h
        rw [if_neg (fun x => hL x.1), if_neg (fun x => hout x.1)]

/-! ## Characterisation of the connect pass and of the forwarder -/

theorem pendingAddrs_sublist_keys (r : Registry) :
    (pendingAddrs r).Sublist (Registry.keys r) :=
  (List.filter_sublist r).map Prod.fst

theorem connectedAddrs_sublist_keys (r : Registry) :
    (connectedAddrs r).Sublist (Registry.keys r) :=
  (List.filter_sublist r).map Prod.fst

theorem mem_pendingAddrs (r : Registry) (hn : (Registry.keys r).Nodup) (ip : Addr) :
    ip ∈ pendingAddrs r ↔ Registry.get r ip = some none := by
  constructor
  · intro h
    rcases List.mem_map.mp h with ⟨⟨a, v⟩, hpf, hfst⟩
    rcases List.mem_filter.mp hpf with ⟨hpr, hcond⟩
    have hv : v = none := by simpa using hcond
    cases hfst
    subst hv
    exact get_eq_some_of_mem r a none hn hpr
  · intro h
    exact List.mem_map.mpr
      ⟨(ip, none), List.mem_filter.mpr ⟨mem_of_get_eq_some r ip none h, by simp⟩, rfl⟩

theorem mem_connectedAddrs (r : Registry) (hn : (Registry.keys r).Nodup) (ip : Addr) :
    ip ∈ connectedAddrs r ↔ ∃ h : Handle, Registry.get r ip = some (some h) := by
  constructor
  · intro h
    rcases List.mem_map.mp h with ⟨⟨a, v⟩, hpf, hfst⟩
    rcases List.mem_filter.mp hpf with ⟨hpr, hcond⟩
    have hv : v.isSome = true := by simpa using hcond
    rcases Option.isSome_iff_exists.mp hv with ⟨hh, hveq⟩
    cases hfst
    subst hveq
    exact ⟨hh, get_eq_some_of_mem r a (some hh) hn hpr⟩
  · rintro ⟨hh, hget⟩
    exact List.mem_map.mpr
      ⟨(ip, some hh),
        List.mem_filter.mpr ⟨mem_of_get_eq_some r ip (some hh) hget, by simp⟩, rfl⟩

theorem connect_to_targets_eq_foldl_updWhere (connOut : Addr → Option Handle)
    (r : Registry) :
    connect_to_targets connOut r =
      (pendingAddrs r).foldl (updWhere (fun a => (connOut a).isSome) (fun a => connOut a)) r := by
  have hf : connect_to_target connOut =
      updWhere (fun a => (connOut a).isSome) (fun a => connOut a) :=
    funext fun s => funext fun ip => connect_to_target_eq_updWhere connOut s ip
  rw [connect_to_targets, hf]

theorem forward_data_eq_foldl_updWhere (wout : Addr → WriteOutcome) (r : Registry) :
    forward_data wout r =
      (connectedAddrs r).foldl
        (updWhere (fun a => wout a = WriteOutcome.resetErr) (fun _ => none)) r := by
  have hf : forward_to_target wout =
      updWhere (fun a => wout a = WriteOutcome.resetErr) (fun _ => none) :=
    funext fun s => funext fun ip => forward_to_target_eq_updWhere wout s ip
  rw [forward_data, hf]

theorem connect_to_targets_keys (connOut : Addr → Option Handle) (r : Registry) :
    Registry.keys (connect_to_targets connOut r) = Registry.keys r := by
  rw [connect_to_targets_eq_foldl_updWhere]
  exact foldl_updWhere_keys _ _ (pendingAddrs r) r
    (fun a ha => (pendingAddrs_sublist_keys r).subset ha)

theorem forward_data_keys (wout : Addr → WriteOutcome) (r : Registry) :
    Registry.keys (forward_data wout r) = Registry.keys r := by
  rw [forward_data_eq_foldl_updWhere]
  exact foldl_updWhere_keys _ _ (connectedAddrs r) r
    (fun a ha => (connectedAddrs_sublist_keys r).subset ha)

/-- What one whole connect pass does to each address: a `Disconnected` entry
receives the connect outcome for its address, every other entry is untouched. -/
theorem connect_to_targets_get (connOut : Addr → Option Handle) (r : Registry)
    (hn : (Registry.keys r).Nodup) (ip : Addr) :
    Registry.get (connect_to_targets connOut r) ip =
      match Registry.get r ip with
      | some none => some (connOut ip)
      | o => o := by
  rw [connect_to_targets_eq_foldl_updWhere,
    foldl_updWhere_get _ _ (pendingAddrs r) r
      (List.Nodup.sublist (pendingAddrs_sublist_keys r) hn)
      (fun a ha => (pendingAddrs_sublist_keys r).subset ha) ip]
  by_cases hp : ip ∈ pendingAddrs r
  · have hget := (mem_pendingAddrs r hn ip).mp hp
    rw [hget]
    show _ = some (connOut ip)
    by_cases hc : (connOut ip).isSome = true
    · rw [if_pos ⟨hp, hc⟩]
    · rw [if_neg (fun x => hc x.2)]
      rcases ho : connOut ip with _ | hh
      · rfl
      · rw [ho] at hc
        simp at hc
  · rw [if_neg (fun x => hp x.1)]
    rcases hget : Registry.get r ip with _ | v
    · rfl
    · rcases v with _ | hh
      · exact absurd ((mem_pendingAddrs r hn ip).mpr hget) hp
      · rfl

/-- What one `forward_data` call does to each address: a `Connected` entry is
reset to `None` exactly when its own write fails with the reset/broken-pipe
class, every other entry is untouched. -/
theorem forward_data_get (wout : Addr → WriteOutcome) (r : Registry)
    (hn : (Registry.keys r).Nodup) (ip : Addr) :
    Registry.get (forward_data wout r) ip =
      match Registry.get r ip with
      | some (some h) =>
        if wout ip = WriteOutcome.resetErr then some none else some (some h)
      | o => o := by
  rw [forward_data_eq_foldl_updWhere,
    foldl_updWhere_get _ _ (connectedAddrs r) r
      (List.Nodup.sublist (connectedAddrs_sublist_keys r) hn)
      (fun a ha => (connectedAddrs_sublist_keys r).subset ha) ip]
  by_cases hp : ip ∈ connectedAddrs r
  · rcases (mem_connectedAddrs r hn ip).mp hp with ⟨hh, hget⟩
    rw [hget]
    show _ = if wout ip = WriteOutcome.resetErr then some none else some (some hh)
    by_cases hw : wout ip = WriteOutcome.resetErr
    · rw [if_pos ⟨hp, by simpa using hw⟩, if_pos hw]
    · rw [if_neg (fun x => hw (by simpa using x.2)), if_neg hw]
  · rw [if_neg (fun x => hp x.1)]
    rcases hget : Registry.get r ip with _ | v
    · rfl
    · rcases v with _ | hh
      · rfl
      · exact absurd ((mem_connectedAddrs r hn ip).mpr ⟨hh, hget⟩) hp

/-! ## Claims about the forwarder and the connector -/

/-- C1 counterexample: the claim asserts that when the write to `T` fails with
the reset/broken-pipe class, the state of *every* other target is unchanged by
that `forward` call — but two targets can hit that class in the same call.
Here the write to `"10.0.0.1"` fails with reset, and `"10.0.0.2"` (whose write
also fails with reset) is changed by the very same call. -/
theorem forward_two_resets_change_two_targets :
    (fun _ : Addr => WriteOutcome.resetErr) "10.0.0.1" = WriteOutcome.resetErr ∧
    Registry.get [("10.0.0.1", some 1), ("10.0.0.2", some 2)] "10.0.0.1" =
      some (some 1) ∧
    Registry.get
        (forward_data (fun _ => WriteOutcome.resetErr)
          [("10.0.0.1", some 1), ("10.0.0.2", some 2)]) "10.0.0.2" ≠
      Registry.get [("10.0.0.1", some 1), ("10.0.0.2", some 2)] "10.0.0.2" := by
  decide

/-- C1 (amended): if the write to target `T` during `forward_data` fails with
a connection-reset / broken-pipe class error, then `T` transitions to
`Disconnected`; every other target whose own write does not fail with that
class keeps its previous state, and every other target's final state is
exactly what it would have been had `T`'s write succeeded (the failure at `T`
has no cross-target effect).  The `except` clause catching
`ConnectionResetError`/`BrokenPipeError` is embedded as the total
`resetErr` branch of `forward_to_target`, so no exception propagates past
`T`'s attempt. -/
theorem forward_write_reset_frame (wout : Addr → WriteOutcome) (r : Registry)
    (T : Addr) (h : Handle) (hn : (Registry.keys r).Nodup)
    (hT : Registry.get r T = some (some h))
    (hw : wout T = WriteOutcome.resetErr) :
    Registry.get (forward_data wout r) T = some none ∧
    (∀ U, U ≠ T → wout U ≠ WriteOutcome.resetErr →
      Registry.get (forward_data wout r) U = Registry.get r U) ∧
    (∀ U, U ≠ T →
      Registry.get (forward_data wout r) U =
        Registry.get (forward_data (fun a => if a = T then WriteOutcome.ok else wout a) r) U) := by
  refine ⟨?_, ?_, ?_⟩
  · rw [forward_data_get wout r hn T, hT]
    simp [hw]
  · intro U hUT hwU
    rw [forward_data_get wout r hn U]
    rcases hg : Registry.get r U with _ | v
    · rfl
    · rcases v with _ | hh
      · rfl
      · simp [hwU]
  · intro U hUT
    rw [forward_data_get wout r hn U, forward_data_get _ r hn U]
    rcases hg : Registry.get r U with _ | v
    · rfl
    · rcases v with _ | hh
      · rfl
      · simp [hUT]

theorem forward_write_reset_frame_witness :
    Registry.get
        (forward_data
          (fun a => if a = "10.0.0.1" then WriteOutcome.resetErr else WriteOutcome.ok)
          [("10.0.0.1", some 1), ("10.0.0.2", some 2), ("10.0.0.3", none)])
        "10.0.0.1" = some none ∧
    Registry.get
        (forward_data
          (fun a => if a = "10.0.0.1" then WriteOutcome.resetErr else WriteOutcome.ok)
          [("10.0.0.1", some 1), ("10.0.0.2", some 2), ("10.0.0.3", none)])
        "10.0.0.2" = some (some 2) := by
  have hmain := forward_write_reset_frame
    (fun a => if a = "10.0.0.1" then WriteOutcome.resetErr else WriteOutcome.ok)
    [("10.0.0.1", some 1), ("10.0.0.2", some 2), ("10.0.0.3", none)]
    "10.0.0.1" 1 (by decide) (by decide) (by decide)
  refine ⟨hmain.1, ?_⟩
  rw [hmain.2.1 "10.0.0.2" (by decide) (by decide)]
  decide

/-- C2: a connect pass skips every target that is already `Connected` (its
state and handle are unchanged), and running the pass twice in succession with
the same per-address connect outcomes leaves the registry exactly as running
it once (idempotence). -/
theorem connect_pass_skips_connected_and_idempotent (connOut : Addr → Option Handle)
    (r : Registry) (hn : (Registry.keys r).Nodup) :
    (∀ ip h, Registry.get r ip = some (some h) →
      Registry.get (connect_to_targets connOut r) ip = some (some h)) ∧
    connect_to_targets connOut (connect_to_targets connOut r) =
      connect_to_targets connOut r := by
  have hkeys := connect_to_targets_keys connOut r
  have hn1 : (Registry.keys (connect_to_targets connOut r)).Nodup := hkeys ▸ hn
  constructor
  · intro ip h hip
    rw [connect_to_targets_get connOut r hn ip, hip]
  · apply registry_ext
    · rw [connect_to_targets_keys, hkeys]
    · rw [connect_to_targets_keys, hkeys]
      exact hn
    · intro ip
      rw [connect_to_targets_get connOut _ hn1 ip, connect_to_targets_get connOut r hn ip]
      rcases hg : Registry.get r ip with _ | v
      · rfl
      · rcases v with _ | hh
        · show (match some (connOut ip) with
            | some none => some (connOut ip)
            | o => o) = some (connOut ip)
          rcases ho : connOut ip with _ | hh2 <;> rfl
        · rfl

theorem connect_pass_skips_connected_and_idempotent_witness :
    Registry.get
        (connect_to_targets (fun _ => none) [("10.0.0.1", some 7), ("10.0.0.2", none)])
        "10.0.0.1" = some (some 7) ∧
    connect_to_targets (fun _ => none)
        (connect_to_targets (fun _ => none) [("10.0.0.1", some 7), ("10.0.0.2", none)]) =
      connect_to_targets (fun _ => none) [("10.0.0.1", some 7), ("10.0.0.2", none)] := by
  have hmain := connect_pass_skips_connected_and_idempotent (fun _ => none)
    [("10.0.0.1", some 7), ("10.0.0.2", none)] (by decide)
  exact ⟨hmain.1 "10.0.0.1" 7 (by decide), hmain.2⟩

/-- C3: a connect attempt on a `Disconnected` address either stores the new
handle obtained within the 5-unit timeout, or — on timeout or any connection
error, both modelled as `connOut ip = none` — leaves the registry exactly as
it was.  The `try/except` of `connect_to_target` is embedded as a total
function, so the attempt never raises to its caller. -/
theorem connect_to_target_disconnected_cases (connOut : Addr → Option Handle)
    (r : Registry) (ip : Addr) (hd : Registry.get r ip = some none) :
    connect_timeout = 5 ∧
    ((∃ h, connOut ip = some h ∧
        Registry.get (connect_to_target connOut r ip) ip = some (some h)) ∨
      (connOut ip = none ∧ connect_to_target connOut r ip = r)) := by
  refine ⟨rfl, ?_⟩
  rcases ho : connOut ip with _ | h
  · exact Or.inr ⟨rfl, by simp [connect_to_target, ho]⟩
  · refine Or.inl ⟨h, rfl, ?_⟩
    simp only [connect_to_target, ho]
    exact get_set_self r ip (some h)

theorem connect_to_target_disconnected_cases_witness :
    connect_timeout = 5 ∧
    ((∃ h, (fun a => if a = "10.0.0.1" then some 3 else none) "10.0.0.1" = some h ∧
        Registry.get
          (connect_to_target (fun a => if a = "10.0.0.1" then some 3 else none)
            [("10.0.0.1", none)] "10.0.0.1") "10.0.0.1" = some (some h)) ∨
      ((fun a => if a = "10.0.0.1" then some 3 else none) "10.0.0.1" = none ∧
        connect_to_target (fun a => if a = "10.0.0.1" then some 3 else none)
          [("10.0.0.1", none)] "10.0.0.1" = [("10.0.0.1", none)])) :=
  connect_to_target_disconnected_cases
    (fun a => if a = "10.0.0.1" then some 3 else none) [("10.0.0.1", none)]
    "10.0.0.1" (by decide)

/-- C4: a write error during `forward_data` that is not of the
reset/broken-pipe class (the final `except Exception` clause) leaves the
target's entry unchanged — it remains `Connected` with the same handle — and a
subsequent connect pass does not touch it, so no reconnection is triggered for
that target.  Containment (no raise) is the totality of the embedded
`otherErr` branch. -/
theorem forward_other_error_leaves_target (wout : Addr → WriteOutcome)
    (connOut : Addr → Option Handle) (r : Registry) (T : Addr) (h : Handle)
    (hn : (Registry.keys r).Nodup) (hT : Registry.get r T = some (some h))
    (hw : wout T = WriteOutcome.otherErr) :
    Registry.get (forward_data wout r) T = some (some h) ∧
    Registry.get (connect_to_targets connOut (forward_data wout r)) T =
      some (some h) := by
  have h1 : Registry.get (forward_data wout r) T = some (some h) := by
    rw [forward_data_get wout r hn T, hT]
    simp [hw]
  refine ⟨h1, ?_⟩
  have hn1 : (Registry.keys (forward_data wout r)).Nodup :=
    (forward_data_keys wout r) ▸ hn
  rw [connect_to_targets_get connOut _ hn1 T, h1]

theorem forward_other_error_leaves_target_witness :
    Registry.get
        (forward_data (fun _ => WriteOutcome.otherErr) [("10.0.0.1", some 5)])
        "10.0.0.1" = some (some 5) ∧
    Registry.get
        (connect_to_targets (fun _ => some 9)
          (forward_data (fun _ => WriteOutcome.otherErr) [("10.0.0.1", some 5)]))
        "10.0.0.1" = some (some 5) :=
  forward_other_error_leaves_target (fun _ => WriteOutcome.otherErr) (fun _ => some 9)
    [("10.0.0.1", some 5)] "10.0.0.1" 5 (by decide) (by decide) (by decide)

/-- C5: when no target is `Connected`, `forward_data` selects no address, so
the call completes (totality) and returns the registry unchanged — the chunk
is dropped with no error, no queuing and no buffering, and every
`Disconnected` target is simply skipped. -/
theorem forward_data_all_disconnected_noop (wout : Addr → WriteOutcome)
    (r : Registry) (hall : ∀ p ∈ r, p.2 = none) :
    forward_data wout r = r := by
  have hconn : connectedAddrs r = [] := by
    unfold connectedAddrs
    have : r.filter (fun p => p.2.isSome) = [] := by
      rw [List.filter_eq_nil_iff]
      intro p hp
      simp [hall p hp]
    rw [this]
    rfl
  rw [forward_data, hconn]
  rfl

theorem forward_data_all_disconnected_noop_witness :
    forward_data (fun _ => WriteOutcome.resetErr)
        [("10.0.0.1", none), ("10.0.0.2", none)] =
      [("10.0.0.1", none), ("10.0.0.2", none)] :=
  forward_data_all_disconnected_noop (fun _ => WriteOutcome.resetErr)
    [("10.0.0.1", none), ("10.0.0.2", none)] (by decide)

/-! ## Claims about startup, shutdown and the client session -/

/-- C6: in `start_server`, the synchronous full connect pass finishes before
the reconnection loop is spawned and before the listener begins accepting
clients, and the registry the accept loop starts from is the one produced by
the completed pass — so no client chunk can be forwarded while the initial
connect pass is still in progress. -/
theorem startup_connect_pass_before_accept (connOut : Addr → Option Handle)
    (r : Registry) :
    (start_server connOut r).1 = connect_to_targets connOut r ∧
    (∀ i ip, (start_server connOut r).2.get? i = some (StartupEv.connectAttempt ip) →
      ∀ j, (start_server connOut r).2.get? j = some StartupEv.spawnReconnectLoop → i < j) ∧
    (∀ j, (start_server connOut r).2.get? j = some StartupEv.spawnReconnectLoop →
      ∀ jb, (start_server connOut r).2.get? jb = some StartupEv.beginAccept → j < jb) ∧
    (∀ i ip, (start_server connOut r).2.get? i = some (StartupEv.connectAttempt ip) →
      ∀ jb, (start_server connOut r).2.get? jb = some StartupEv.beginAccept → i < jb) := by
  set A := (pendingAddrs r).map StartupEv.connectAttempt with hA
  have hev : (start_server connOut r).2 =
      A ++ [StartupEv.spawnReconnectLoop, StartupEv.beginAccept] := rfl
  have hAonly : ∀ m e, A.get? m = some e → ∃ ip, e = StartupEv.connectAttempt ip := by
    intro m e hm
    have hmem : e ∈ A := List.get?_mem hm
    rcases List.mem_map.mp hmem with ⟨ip, _, he⟩
    exact ⟨ip, he.symm⟩
  have hpair : ∀ m e,
      ([StartupEv.spawnReconnectLoop, StartupEv.beginAccept] : List StartupEv).get? m = some e →
      (m = 0 ∧ e = StartupEv.spawnReconnectLoop) ∨ (m = 1 ∧ e = StartupEv.beginAccept) := by
    intro m e hm
    match m with
    | 0 => exact Or.inl ⟨rfl, (Option.some.inj hm).symm⟩
    | 1 => exact Or.inr ⟨rfl, (Option.some.inj hm).symm⟩
    | k + 2 => simp [List.get?] at hm
  have hci : ∀ i ip,
      (start_server connOut r).2.get? i = some (StartupEv.connectAttempt ip) →
      i < A.length := by
    intro i ip h
    by_contra hge
    push_neg at hge
    rw [hev, List.get?_append_right hge] at h
    rcases hpair _ _ h with ⟨_, he⟩ | ⟨_, he⟩ <;> exact StartupEv.noConfusion he
  have hsp : ∀ j,
      (start_server connOut r).2.get? j = some StartupEv.spawnReconnectLoop →
      j = A.length := by
    intro j h
    rcases Nat.lt_or_ge j A.length with hlt | hge
    · rw [hev, List.get?_append hlt] at h
      rcases hAonly _ _ h with ⟨ip, he⟩
      exact StartupEv.noConfusion he
    · rw [hev, List.get?_append_right hge] at h
      rcases hpair _ _ h with ⟨h0, _⟩ | ⟨h1, he⟩
      · omega
      · exact StartupEv.noConfusion he
  have hba : ∀ j,
      (start_server connOut r).2.get? j = some StartupEv.beginAccept →
      j = A.length + 1 := by
    intro j h
    rcases Nat.lt_or_ge j A.length with hlt | hge
    · rw [hev, List.get?_append hlt] at h
      rcases hAonly _ _ h with ⟨ip, he⟩
      exact StartupEv.noConfusion he
    · rw [hev, List.get?_append_right hge] at h
      rcases hpair _ _ h with ⟨h0, he⟩ | ⟨h1, _⟩
      · exact StartupEv.noConfusion he
      · omega
  refine ⟨rfl, ?_, ?_, ?_⟩
  · intro i ip hi j hj
    have h1 := hci i ip hi
    have h2 := hsp j hj
    omega
  · intro j hj jb hjb
    have h1 := hsp j hj
    have h2 := hba jb hjb
    omega
  · intro i ip hi jb hjb
    have h1 := hci i ip hi
    have h2 := hba jb hjb
    omega

theorem startup_connect_pass_before_accept_witness :
    (start_server (fun _ => some 4) [("10.0.0.1", none)]).1 =
      connect_to_targets (fun _ => some 4) [("10.0.0.1", none)] ∧
    (0 : Nat) < 1 ∧ (1 : Nat) < 2 ∧ (0 : Nat) < 2 := by
  have hmain := startup_connect_pass_before_accept (fun _ => some 4) [("10.0.0.1", none)]
  refine ⟨hmain.1, ?_, ?_, ?_⟩
  · exact hmain.2.1 0 "10.0.0.1" (by decide) 1 (by decide)
  · exact hmain.2.2.1 1 (by decide) 2 (by decide)
  · exact hmain.2.2.2 0 "10.0.0.1" (by decide) 2 (by decide)

theorem connectedAddrs_cons_some (k : Addr) (h : Handle) (rest : Registry) :
    connectedAddrs ((k, some h) :: rest) = k :: connectedAddrs rest := by
  simp [connectedAddrs]

theorem connectedAddrs_cons_none (k : Addr) (rest : Registry) :
    connectedAddrs ((k, none) :: rest) = connectedAddrs rest := by
  simp [connectedAddrs]

theorem shutdown_fold_map_fst (closeFails : Addr → Bool) :
    ∀ (r : Registry) (acc : List (Addr × Bool)),
    (r.foldl (shutdown_close_step closeFails) acc).map Prod.fst =
      acc.map Prod.fst ++ connectedAddrs r
  | [], acc => by simp [connectedAddrs]
  | (k, v) :: rest, acc => by
    rcases v with _ | h
    · rw [List.foldl_cons,
        show shutdown_close_step closeFails acc (k, none) = acc from rfl,
        shutdown_fold_map_fst closeFails rest acc, connectedAddrs_cons_none]
    · rw [List.foldl_cons, shutdown_fold_map_fst closeFails rest _,
        connectedAddrs_cons_some]
      have hstep : (shutdown_close_step closeFails acc (k, some h)).map Prod.fst =
          acc.map Prod.fst ++ [k] := by
        by_cases hc : closeFails k = true <;>
          simp [shutdown_close_step, try_close, hc]
      rw [hstep, List.append_assoc]
      rfl

/-- C7: `shutdown_server` sets the running flag to stopped, and its loop over
the whole registry attempts a close on exactly the `Connected` targets, in
registry order, for every pattern of close failures — a raised close is caught
inside the loop, so it never prevents the close of any remaining target. -/
theorem shutdown_stops_flag_and_closes_all_connected (closeFails : Addr → Bool)
    (r : Registry) :
    (shutdown_server closeFails r).1 = false ∧
    (shutdown_server closeFails r).2.map Prod.fst = connectedAddrs r := by
  refine ⟨rfl, ?_⟩
  show (r.foldl (shutdown_close_step closeFails) []).map Prod.fst = connectedAddrs r
  rw [shutdown_fold_map_fst closeFails r []]
  rfl

theorem session_loop_chunks_append (tail : List ReadRes) :
    ∀ ds : List (List Nat), (∀ d ∈ ds, d ≠ []) →
    session_loop (ds.map ReadRes.chunk ++ tail) =
      (ds ++ (session_loop tail).1, (session_loop tail).2)
  | [], _ => by simp
  | d :: ds, hne => by
    have hd : d ≠ [] := hne d (List.mem_cons_self _ _)
    have hrec := session_loop_chunks_append tail ds
      (fun x hx => hne x (List.mem_cons_of_mem _ hx))
    simp only [List.map_cons, List.cons_append, List.append_eq, session_loop,
      if_neg hd, hrec]

/-- C8: the client session closes the client-side handle on every termination
path — read error mid-stream (with every chunk read before the error having
been handed to the forwarder, in order), empty read (EOF), and loop exit from
the running flag — because the close sits in the handler's `finally:` block,
which executes even when a prior step raised. -/
theorem client_session_always_closes (ds : List (List Nat)) (post : List ReadRes)
    (hne : ∀ d ∈ ds, d ≠ []) :
    (handle_client (ds.map ReadRes.chunk ++ ReadRes.readErr :: post)).closed = true ∧
    (handle_client (ds.map ReadRes.chunk ++ ReadRes.readErr :: post)).forwarded = ds ∧
    (handle_client (ds.map ReadRes.chunk ++ ReadRes.readErr :: post)).ended =
      SessionEnd.failed ∧
    (handle_client (ds.map ReadRes.chunk ++ [ReadRes.chunk []])).closed = true ∧
    (handle_client (ds.map ReadRes.chunk ++ [ReadRes.chunk []])).ended =
      SessionEnd.eof ∧
    (handle_client (ds.map ReadRes.chunk)).closed = true := by
  have h1 := session_loop_chunks_append (ReadRes.readErr :: post) ds hne
  have h2 := session_loop_chunks_append [ReadRes.chunk []] ds hne
  refine ⟨rfl, ?_, ?_, rfl, ?_, rfl⟩
  · show (session_loop (ds.map ReadRes.chunk ++ ReadRes.readErr :: post)).1 = ds
    rw [h1]
    simp [session_loop]
  · show (session_loop (ds.map ReadRes.chunk ++ ReadRes.readErr :: post)).2 =
      SessionEnd.failed
    rw [h1]
    rfl
  · show (session_loop (ds.map ReadRes.chunk ++ [ReadRes.chunk []])).2 =
      SessionEnd.eof
    rw [h2]
    simp [session_loop]

theorem client_session_always_closes_witness :
    (handle_client ([[104, 105]].map ReadRes.chunk ++
        ReadRes.readErr :: [ReadRes.chunk [33]])).closed = true ∧
    (handle_client ([[104, 105]].map ReadRes.chunk ++
        ReadRes.readErr :: [ReadRes.chunk [33]])).forwarded = [[104, 105]] := by
  have hmain := client_session_always_closes [[104, 105]] [ReadRes.chunk [33]]
    (by decide)
  exact ⟨hmain.1, hmain.2.1⟩

/-! ## Claims about configuration and registry initialisation -/

theorem keys_set_not_mem : ∀ (r : Registry) (ip : Addr) (v : Option Handle),
    ip ∉ Registry.keys r → Registry.keys (Registry.set r ip v) = Registry.keys r ++ [ip]
  | [], ip, v, _ => by simp [Registry.set]
  | (k, w) :: rest, ip, v, hmem => by
    have hk : ¬k = ip := fun he => hmem (by rw [keys_cons]; exact List.mem_cons.mpr (Or.inl he.symm))
    have hrest : ip ∉ Registry.keys rest :=
      fun ht => hmem (by rw [keys_cons]; exact List.mem_cons_of_mem _ ht)
    simp only [Registry.set, if_neg hk, keys_cons, List.cons_append]
    rw [keys_set_not_mem rest ip v hrest]

theorem mem_keys_set (r : Registry) (ip : Addr) (v : Option Handle) (a : Addr) :
    a ∈ Registry.keys (Registry.set r ip v) ↔ a = ip ∨ a ∈ Registry.keys r := by
  by_cases hm : ip ∈ Registry.keys r
  · rw [keys_set_of_mem r ip v hm]
    constructor
    · exact Or.inr
    · rintro (rfl | h)
      · exact hm
      · exact h
  · rw [keys_set_not_mem r ip v hm]
    rw [List.mem_append, List.mem_singleton]
    tauto

theorem nodup_keys_set (r : Registry) (ip : Addr) (v : Option Handle)
    (hn : (Registry.keys r).Nodup) : (Registry.keys (Registry.set r ip v)).Nodup := by
  by_cases hm : ip ∈ Registry.keys r
  · rw [keys_set_of_mem r ip v hm]
    exact hn
  · rw [keys_set_not_mem r ip v hm]
    rw [List.nodup_append]
    refine ⟨hn, List.nodup_singleton _, ?_⟩
    intro a ha hb
    rw [List.mem_singleton] at hb
    exact hm (hb ▸ ha)

theorem initRegistry_foldl_nodup : ∀ (ips : List Addr) (r : Registry),
    (Registry.keys r).Nodup →
    (Registry.keys (ips.foldl (fun r ip => Registry.set r ip none) r)).Nodup
  | [], _, hn => hn
  | ip :: ips, r, hn =>
    initRegistry_foldl_nodup ips _ (nodup_keys_set r ip none hn)

theorem initRegistry_foldl_mem : ∀ (ips : List Addr) (r : Registry) (a : Addr),
    a ∈ Registry.keys (ips.foldl (fun r ip => Registry.set r ip none) r) ↔
      a ∈ Registry.keys r ∨ a ∈ ips
  | [], r, a => by simp
  | ip :: ips, r, a => by
    rw [List.foldl_cons, initRegistry_foldl_mem ips _ a, mem_keys_set, List.mem_cons]
    tauto

theorem initRegistry_foldl_get_none : ∀ (ips : List Addr) (r : Registry),
    (∀ a ∈ Registry.keys r, Registry.get r a = some none) →
    ∀ a ∈ Registry.keys (ips.foldl (fun r ip => Registry.set r ip none) r),
    Registry.get (ips.foldl (fun r ip => Registry.set r ip none) r) a = some none
  | [], _, hinv, a, ha => hinv a ha
  | ip :: ips, r, hinv, a, ha => by
    rw [List.foldl_cons] at ha ⊢
    refine initRegistry_foldl_get_none ips _ ?_ a ha
    intro b hb
    by_cases hbe : b = ip
    · subst hbe
      exact get_set_self r b none
    · rw [get_set_ne r ip b none hbe]
      exact hinv b (((mem_keys_set r ip none b).mp hb).resolve_left hbe)

/-- C9 counterexample: the claim promises one registry entry per configured
address with duplicates preserved as given, but `{ip: None for ip in ips}` is
a dict comprehension, so a config file whose two non-empty lines are both
`10.0.0.1` yields a two-element address sequence and a one-entry registry. -/
theorem config_duplicate_collapses_in_registry :
    ¬ ((initRegistry (read_ips_from_config ["10.0.0.1", "10.0.0.1"])).length =
        (read_ips_from_config ["10.0.0.1", "10.0.0.1"]).length) := by
  decide

/-- C9 (amended): the startup path consumes the configured addresses as an
ordered sequence with duplicates and order preserved as given (one address per
non-empty stripped line), and initialises the Target Registry with one entry
per **distinct** configured address — duplicate config lines collapse into a
single dict entry — each in state `Disconnected`. -/
theorem config_sequence_and_registry_init (lines : List String) :
    (read_ips_from_config lines).Sublist (lines.map pyStrip) ∧
    (∀ a, a ≠ "" →
      (read_ips_from_config lines).count a = (lines.map pyStrip).count a) ∧
    (Registry.keys (initRegistry (read_ips_from_config lines))).Nodup ∧
    (∀ a, a ∈ Registry.keys (initRegistry (read_ips_from_config lines)) ↔
      a ∈ read_ips_from_config lines) ∧
    (∀ ip ∈ read_ips_from_config lines,
      Registry.get (initRegistry (read_ips_from_config lines)) ip = some none) := by
  refine ⟨List.filter_sublist _, ?_, ?_, ?_, ?_⟩
  · intro a ha
    unfold read_ips_from_config
    rw [List.count_filter (by simpa using ha)]
  · exact initRegistry_foldl_nodup (read_ips_from_config lines) [] List.nodup_nil
  · intro a
    have h := initRegistry_foldl_mem (read_ips_from_config lines) [] a
    simpa using h
  · intro ip hip
    refine initRegistry_foldl_get_none (read_ips_from_config lines) []
      (by intro a ha; simp at ha) ip ?_
    exact (initRegistry_foldl_mem _ [] ip).mpr (Or.inr hip)

theorem config_sequence_and_registry_init_witness :
    (read_ips_from_config ["10.0.0.1", "10.0.0.1", " ", "10.0.0.2"]).Sublist
      (["10.0.0.1", "10.0.0.1", " ", "10.0.0.2"].map pyStrip) ∧
    (read_ips_from_config ["10.0.0.1", "10.0.0.1", " ", "10.0.0.2"]).count "10.0.0.1" =
      (["10.0.0.1", "10.0.0.1", " ", "10.0.0.2"].map pyStrip).count "10.0.0.1" ∧
    Registry.get
        (initRegistry (read_ips_from_config ["10.0.0.1", "10.0.0.1", " ", "10.0.0.2"]))
        "10.0.0.2" = some none := by
  have hmain := config_sequence_and_registry_init ["10.0.0.1", "10.0.0.1", " ", "10.0.0.2"]
  exact ⟨hmain.1, hmain.2.1 "10.0.0.1" (by decide), hmain.2.2.2.2 "10.0.0.2" (by decide)⟩

end TcpRelay

namespace UdpRelay

open TcpRelay (Addr)

/-! ## Claim about the companion UDP relay -/

theorem handle_client_append_nonempty (targets : List Addr) :
    ∀ (pre tail : List (List Nat)), (∀ d ∈ pre, d ≠ []) →
    handle_client targets (pre ++ tail) =
      pre.flatMap (fun d => targets.map (forward_data d)) ++ handle_client targets tail
  | [], tail, _ => by simp
  | d :: pre, tail, hne => by
    have hd : d ≠ [] := hne d (List.mem_cons_self _ _)
    have hrec := handle_client_append_nonempty targets pre tail
      (fun x hx => hne x (List.mem_cons_of_mem _ hx))
    simp only [List.cons_append, List.append_eq, handle_client, if_neg hd, hrec,
      List.flatMap_cons, List.append_assoc]

/-- C10: in the UDP relay's receive loop, a zero-length datagram is treated as
end-of-input: the loop breaks and nothing after it is forwarded, even though
further datagrams (here `post`) could still arrive on the socket; and each
non-empty datagram received before it is fanned out with exactly one attempted
send per configured target address, in order. -/
theorem udp_empty_datagram_ends_receive_loop (targets : List Addr)
    (pre post : List (List Nat)) (hne : ∀ d ∈ pre, d ≠ []) :
    handle_client targets (pre ++ [] :: post) =
      pre.flatMap (fun d => targets.map (forward_data d)) ∧
    handle_client targets pre =
      pre.flatMap (fun d => targets.map (forward_data d)) := by
  constructor
  · rw [handle_client_append_nonempty targets pre ([] :: post) hne]
    simp [handle_client]
  · have h := handle_client_append_nonempty targets pre [] hne
    rw [List.append_nil] at h
    rw [h]
    simp [handle_client]

theorem udp_empty_datagram_ends_receive_loop_witness :
    handle_client ["10.0.0.1", "10.0.0.2"] ([[1], [2]] ++ [] :: [[3]]) =
      [("10.0.0.1", [1]), ("10.0.0.2", [1]), ("10.0.0.1", [2]), ("10.0.0.2", [2])] ∧
    handle_client ["10.0.0.1", "10.0.0.2"] [[1], [2]] =
      [("10.0.0.1", [1]), ("10.0.0.2", [1]), ("10.0.0.1", [2]), ("10.0.0.2", [2])] := by
  have hmain := udp_empty_datagram_ends_receive_loop ["10.0.0.1", "10.0.0.2"]
    [[1], [2]] [[3]] (by decide)
  rw [hmain.1, hmain.2]
  constructor <;> rfl

end UdpRelay
